import Mathlib

/-!
Formal model of the hd44780i2c LCD driver
(`src/lcdPi/lcd-hd44780-i2c/hd44780i2c.c`).

The driver talks to an HD44780 character LCD through an MCP23017 port
expander.  We embed each C function as a pure Lean function that returns
its C return value together with the trace of expander operations and
delays it performs, and prove the specification's claims about those
traces.

The repository's header `hd44780i2c.h` and the expander implementation
`mcp23017.c` are not part of the sampled sources; the constants and the
expander primitives below are modelled from the specification (marked
`Modelled from the spec:`).  Everything else is translated directly from
`hd44780i2c.c`.
-/

/-! ## Header constants -/

/-- Number of bits in a nibble (`BITS_NIBBLE` in the missing header). -/
def BITS_NIBBLE : Nat := 4

/-- Modelled from the spec: `MODE_COMMAND` selects the command register
(the source tests `if ( !mode )` for a command byte, so the value is 0). -/
def MODE_COMMAND : Nat := 0

/-- Modelled from the spec: `MODE_DATA` selects the data register (the
source computes `display->rs * mode`, so the value is 1). -/
def MODE_DATA : Nat := 1

/-- Modelled from the spec: display geometry, 20 columns
(spec: "4-row/20-column geometry"). -/
def DISPLAY_COLUMNS : Nat := 20

/-- Modelled from the spec: display geometry, 4 rows. -/
def DISPLAY_ROWS : Nat := 4

/-- Modelled from the spec: maximum number of rows supported. -/
def DISPLAY_ROWS_MAX : Nat := 4

/-- Modelled from the spec: DDRAM start address of row 0
(spec: rowStart = [0x00,0x40,0x14,0x54]). -/
def ADDRESS_ROW_0 : Nat := 0x00

/-- Modelled from the spec: DDRAM start address of row 1. -/
def ADDRESS_ROW_1 : Nat := 0x40

/-- Modelled from the spec: DDRAM start address of row 2. -/
def ADDRESS_ROW_2 : Nat := 0x14

/-- Modelled from the spec: DDRAM start address of row 3. -/
def ADDRESS_ROW_3 : Nat := 0x54

/-- Modelled from the spec: DDRAM-select command bit
(spec: "send command byte 0x80 | (0x40+3) = 0xC3"). -/
def ADDRESS_DDRAM : Nat := 0x80

/-- Modelled from the spec: CGRAM-select command bit (HD44780 data sheet). -/
def ADDRESS_CGRAM : Nat := 0x40

/-- Modelled from the spec: clear-display command (HD44780 data sheet). -/
def DISPLAY_CLEAR : Nat := 0x01

/-- Modelled from the spec: return-home command (HD44780 data sheet). -/
def DISPLAY_HOME : Nat := 0x02

/-- Modelled from the spec: function-set base opcode (HD44780 data sheet). -/
def FUNCTION_BASE : Nat := 0x20

/-- Modelled from the spec: function-set data-width flag. -/
def FUNCTION_DATA : Nat := 0x10

/-- Modelled from the spec: function-set line-count flag. -/
def FUNCTION_LINES : Nat := 0x08

/-- Modelled from the spec: function-set font flag. -/
def FUNCTION_FONT : Nat := 0x04

/-- Modelled from the spec: display-control base opcode (display off when
no flags are set). -/
def DISPLAY_BASE : Nat := 0x08

/-- Modelled from the spec: display-control on flag. -/
def DISPLAY_ON : Nat := 0x04

/-- Modelled from the spec: display-control cursor flag. -/
def DISPLAY_CURSOR : Nat := 0x02

/-- Modelled from the spec: display-control blink flag. -/
def DISPLAY_BLINK : Nat := 0x01

/-- Modelled from the spec: entry-mode base opcode. -/
def ENTRY_BASE : Nat := 0x04

/-- Modelled from the spec: entry-mode counter-direction flag. -/
def ENTRY_COUNTER : Nat := 0x02

/-- Modelled from the spec: entry-mode shift flag. -/
def ENTRY_SHIFT : Nat := 0x01

/-- Modelled from the spec: cursor/display shift base opcode. -/
def MOVE_BASE : Nat := 0x10

/-- Modelled from the spec: shift-display (vs cursor) flag. -/
def MOVE_DISPLAY : Nat := 0x08

/-- Modelled from the spec: shift-direction flag. -/
def MOVE_DIRECTION : Nat := 0x04

/-- Modelled from the spec: number of custom glyphs in a glyph table
(the `pacMan` table in the source has 7 glyphs). -/
def CUSTOM_CHARS : Nat := 7

/-- Modelled from the spec: number of pixel rows per custom glyph. -/
def CUSTOM_SIZE : Nat := 8

/-- Modelled from the spec: fixed maximum ticker text capacity
(`TEXT_MAX_LENGTH` in the missing header; the claims depend only on it
being a fixed constant, not on its exact value). -/
def TEXT_MAX_LENGTH : Nat := 64

/-! ## Display record and expander operations -/

/-- Display handle (`struct hd44780i2c`).  The header defining the struct
is not among the sampled sources; the fields are reconstructed from
their uses in `hd44780i2c.c` (`mcp23017`, `reg`, `rs`, `en`, `db[i]`,
used as bit masks passed to the expander primitives) and, for
`initialized`, from the spec's Display record.  The source functions
never read `initialized`. -/
structure Hd44780i2c where
  mcp23017 : Nat
  reg : Nat
  rs : Nat
  en : Nat
  db : Nat → Nat
  initialized : Bool

/-- Modelled from the spec: the ExpanderPort operations of `mcp23017.c`
(not among the sampled sources).  `setBits`/`unsetBits` are the
bitwise set/clear primitives (`mcp23017SetBitsByte` /
`mcp23017UnsetBitsByte`), `writeByte` is the full-byte register write
(`mcp23017WriteByte`), and `sleep` records a `usleep`/`nanosleep`
delay in microseconds. -/
inductive McpEvent where
  | setBits (reg mask : Nat)
  | unsetBits (reg mask : Nat)
  | writeByte (value : Nat)
  | sleep (us : Nat)
deriving DecidableEq, Repr

/-- Embeds `hd44780ToggleEnable` (hd44780i2c.c lines 105-115): set the EN
bit, wait 5 ms, clear the EN bit, wait 5 ms. -/
def hd44780ToggleEnable (d : Hd44780i2c) : List McpEvent :=
  [ .setBits d.reg d.en, .sleep 5000, .unsetBits d.reg d.en, .sleep 5000 ]

/-- Embeds the nibble-to-expander-word composition loop of
`hd44780WriteByte` (hd44780i2c.c lines 136-139 and 151-154):

    byte = display->rs * mode;
    for ( i = 0; i < BITS_NIBBLE; i++ )
        byte |= display->db[i] * (( nib < i ) & 0x1 );

Note the source computes the comparison `nib < i`, not the bit test
`( nib >> i ) & 1`. -/
def composeNibbleByte (d : Hd44780i2c) (nib mode : Nat) : Nat :=
  (List.range BITS_NIBBLE).foldl
    (fun byte i => byte ||| d.db i * ((if nib < i then 1 else 0) &&& 0x1))
    (d.rs * mode)

/-- Embeds the expander-operation trace of `hd44780WriteByte`
(hd44780i2c.c lines 120-165): split the payload into nibbles, and for
the high then the low nibble, deliver the composed word with
`mcp23017SetBitsByte` and toggle EN. -/
def hd44780WriteByteTrace (d : Hd44780i2c) (data mode : Nat) : List McpEvent :=
  let hi := (data >>> BITS_NIBBLE) &&& 0xf
  let lo := data &&& 0xf
  ([.setBits d.reg (composeNibbleByte d hi mode)] ++ hd44780ToggleEnable d)
  ++ ([.setBits d.reg (composeNibbleByte d lo mode)] ++ hd44780ToggleEnable d)

/-- Embeds `hd44780WriteByte` with the expander status codes made
explicit.  `status n` is the result of the n-th expander primitive call
(0 = success, negative = bus fault, per the spec's ExpanderPort
contract).  The source never examines any of these results and returns
the literal 0 at line 164, so the returned value and trace do not
depend on `status`. -/
def hd44780WriteByteRun (d : Hd44780i2c) (status : Nat → Int)
    (data mode : Nat) : Int × List McpEvent :=
  let trace := hd44780WriteByteTrace d data mode
  let _statuses := (List.range trace.length).map status
  (0, trace)

/-- Embeds `hd44780WriteByte`'s return value and trace (the source
returns 0 unconditionally). -/
def hd44780WriteByte (d : Hd44780i2c) (data mode : Nat) :
    Int × List McpEvent :=
  (0, hd44780WriteByteTrace d data mode)

/-- Expander trace produced by a list of `hd44780WriteByte` calls, each
given as (payload, mode). -/
def byteCallsTrace (d : Hd44780i2c) (calls : List (Nat × Nat)) :
    List McpEvent :=
  calls.flatMap (fun c => hd44780WriteByteTrace d c.1 c.2)

/-- Embeds `hd44780WriteString` (hd44780i2c.c lines 170-178): send each
character of the string as a data byte. -/
def hd44780WriteString (d : Hd44780i2c) (s : List Char) :
    Int × List McpEvent :=
  (0, s.flatMap (fun ch => hd44780WriteByteTrace d ch.toNat MODE_DATA))

/-- Row start address table of `hd44780Goto` (hd44780i2c.c lines 196-197). -/
def gotoRowAddresses : List Nat :=
  [ ADDRESS_ROW_0, ADDRESS_ROW_1, ADDRESS_ROW_2, ADDRESS_ROW_3 ]

/-- Embeds `hd44780Goto` (hd44780i2c.c lines 188-202): bounds-check the
column then the row (returning -1 with no expander write on failure),
then send `( ADDRESS_DDRAM | rows[row] ) + pos` as a command byte. -/
def hd44780Goto (d : Hd44780i2c) (row pos : Nat) : Int × List McpEvent :=
  if decide (pos < 0) || decide (pos > DISPLAY_COLUMNS - 1) then (-1, [])
  else if decide (row < 0) || decide (row > DISPLAY_ROWS - 1) then (-1, [])
  else
    (0, hd44780WriteByteTrace d ((ADDRESS_DDRAM ||| gotoRowAddresses.getD row 0) + pos)
          MODE_COMMAND)

/-- Embeds `displayClear` (hd44780i2c.c lines 209-214): send the clear
command and wait 1.6 ms. -/
def displayClear (d : Hd44780i2c) : Int × List McpEvent :=
  (0, hd44780WriteByteTrace d DISPLAY_CLEAR MODE_COMMAND ++ [.sleep 1600])

/-- Embeds `displayHome` (hd44780i2c.c lines 219-224). -/
def displayHome (d : Hd44780i2c) : Int × List McpEvent :=
  (0, hd44780WriteByteTrace d DISPLAY_HOME MODE_COMMAND ++ [.sleep 1600])

/-- C boolean-to-integer coercion used by the source's
`flag * CONSTANT` bit packing. -/
def b2n (b : Bool) : Nat := if b then 1 else 0

/-- Embeds `setEntryMode` (hd44780i2c.c lines 299-308): send the entry
command then a clear command (with no settle delay: the source calls
`hd44780WriteByte` directly, not `displayClear`). -/
def setEntryMode (d : Hd44780i2c) (counter shift : Bool) :
    Int × List McpEvent :=
  (0, hd44780WriteByteTrace d
        (ENTRY_BASE ||| b2n counter * ENTRY_COUNTER ||| b2n shift * ENTRY_SHIFT)
        MODE_COMMAND
      ++ hd44780WriteByteTrace d DISPLAY_CLEAR MODE_COMMAND)

/-- Embeds `setDisplayMode` (hd44780i2c.c lines 313-324). -/
def setDisplayMode (d : Hd44780i2c) (displayOn cursor blink : Bool) :
    Int × List McpEvent :=
  (0, hd44780WriteByteTrace d
        (DISPLAY_BASE ||| b2n displayOn * DISPLAY_ON
          ||| b2n cursor * DISPLAY_CURSOR ||| b2n blink * DISPLAY_BLINK)
        MODE_COMMAND
      ++ hd44780WriteByteTrace d DISPLAY_CLEAR MODE_COMMAND)

/-- Embeds `setMoveMode` (hd44780i2c.c lines 329-338). -/
def setMoveMode (d : Hd44780i2c) (mode direction : Bool) :
    Int × List McpEvent :=
  (0, hd44780WriteByteTrace d
        (MOVE_BASE ||| b2n mode * MOVE_DISPLAY ||| b2n direction * MOVE_DIRECTION)
        MODE_COMMAND
      ++ hd44780WriteByteTrace d DISPLAY_CLEAR MODE_COMMAND)

/-- Embeds `loadCustom` (hd44780i2c.c lines 379-389): select CGRAM, write
every glyph pixel row as data in table order, then select DDRAM. -/
def loadCustom (d : Hd44780i2c) (newChar : Nat → Nat → Nat) :
    Int × List McpEvent :=
  (0, hd44780WriteByteTrace d ADDRESS_CGRAM MODE_COMMAND
      ++ (List.range CUSTOM_CHARS).flatMap (fun i =>
            (List.range CUSTOM_SIZE).flatMap (fun j =>
              hd44780WriteByteTrace d (newChar i j) MODE_DATA))
      ++ hd44780WriteByteTrace d ADDRESS_DDRAM MODE_COMMAND)

/-- Option record of `initialiseDisplay` (its ten boolean parameters). -/
structure InitOptions where
  data : Bool
  lines : Bool
  font : Bool
  displayOn : Bool
  cursor : Bool
  blink : Bool
  counter : Bool
  shift : Bool
  mode : Bool
  direction : Bool

/-- Embeds the expander trace of `initialiseDisplay` (hd44780i2c.c lines
229-292): start-up delay; three 0x3 pulses and one 0x2 pulse written
with the full-byte primitive `mcp23017WriteByte` and direct EN
toggling, with delays 4200 µs, 150 µs, 150 µs, 50 µs; then the
function-set, display-off, entry-mode, display-mode, move-mode, DDRAM
address and clear commands through `hd44780WriteByte`. -/
def initialiseDisplayTrace (d : Hd44780i2c) (o : InitOptions) :
    List McpEvent :=
  [.sleep 42000]
  ++ ([.writeByte 0x03] ++ hd44780ToggleEnable d ++ [.sleep 4200])
  ++ ([.writeByte 0x03] ++ hd44780ToggleEnable d ++ [.sleep 150])
  ++ ([.writeByte 0x03] ++ hd44780ToggleEnable d ++ [.sleep 150])
  ++ ([.writeByte 0x02] ++ hd44780ToggleEnable d ++ [.sleep 50])
  ++ hd44780WriteByteTrace d
       (FUNCTION_BASE ||| b2n o.data * FUNCTION_DATA
         ||| b2n o.lines * FUNCTION_LINES ||| b2n o.font * FUNCTION_FONT)
       MODE_COMMAND
  ++ hd44780WriteByteTrace d DISPLAY_BASE MODE_COMMAND
  ++ hd44780WriteByteTrace d
       (ENTRY_BASE ||| b2n o.counter * ENTRY_COUNTER ||| b2n o.shift * ENTRY_SHIFT)
       MODE_COMMAND
  ++ hd44780WriteByteTrace d
       (DISPLAY_BASE ||| b2n o.displayOn * DISPLAY_ON
         ||| b2n o.cursor * DISPLAY_CURSOR ||| b2n o.blink * DISPLAY_BLINK)
       MODE_COMMAND
  ++ hd44780WriteByteTrace d
       (MOVE_BASE ||| b2n o.mode * MOVE_DISPLAY ||| b2n o.direction * MOVE_DIRECTION)
       MODE_COMMAND
  ++ hd44780WriteByteTrace d ADDRESS_DDRAM MODE_COMMAND
  ++ (displayClear d).2

/-- Concrete pin assignment used for witnesses and counterexamples:
RS = bit 1, EN = bit 0, DB4..DB7 = bits 4..7, output register 0x15. -/
def stdDisplay : Hd44780i2c where
  mcp23017 := 0
  reg := 0x15
  rs := 0x02
  en := 0x01
  db := fun i =>
    match i with
    | 0 => 0x10
    | 1 => 0x20
    | 2 => 0x40
    | 3 => 0x80
    | _ => 0
  initialized := true

/-- The concrete display with the `initialized` flag cleared. -/
def stdUninit : Hd44780i2c :=
  { stdDisplay with initialized := false }

/-! ## String rotation (ticker) -/

/-- Exchange of `buffer[a]` and `buffer[b]` (the three-assignment swap in
the body of `reverseString`'s loop). -/
def swapChars (buffer : Nat → Char) (a b : Nat) : Nat → Char :=
  fun j => if j = a then buffer b else if j = b then buffer a else buffer j

/-- Embeds `reverseString` (hd44780i2c.c lines 396-409).  The buffer is a
total map from index to character; the C loop

    while ( start < end ) { end--; swap; start++; }

becomes recursion on `fin - start`. -/
def reverseString (buffer : Nat → Char) (start fin : Nat) : Nat → Char :=
  if _h : start < fin then
    reverseString (swapChars buffer start (fin - 1)) (start + 1) (fin - 1)
  else buffer
termination_by fin - start
decreasing_by omega

/-- Embeds `rotateString` (hd44780i2c.c lines 414-423): reduce the
increment modulo the length, then reverse [0,inc), [inc,length),
[0,length). -/
def rotateString (buffer : Nat → Char) (length increments : Nat) :
    Nat → Char :=
  let inc := increments % length
  reverseString (reverseString (reverseString buffer 0 inc) inc length) 0 length

/-! ## Ticker task -/

/-- Ticker thread parameters (`struct tickerStruct`; the struct
definition lives in the missing header, fields reconstructed from
their uses in `displayTicker`). -/
structure TickerStruct where
  text : Nat → Char
  length : Nat
  padding : Nat
  increment : Nat
  delay : Nat
  row : Nat
  display : Hd44780i2c

/-- Outcome of the start-up section of `displayTicker`.  `threadExit`
models `pthread_exit( NULL )`, which (Modelled from the spec /
pthreads semantics) terminates only the calling thread: the process,
the other presenter thread and the display are unaffected.
`entersLoop` carries the padded state with which the perpetual loop
begins. -/
inductive TickerOutcome where
  | threadExit
  | entersLoop (st : TickerStruct)

/-- Bounded `strlen` over the modelled text buffer: index of the first
NUL at or after `i`, scanning at most `fuel` positions. -/
def strlenFrom (f : Nat → Char) (i fuel : Nat) : Nat :=
  match fuel with
  | 0 => i
  | fuel + 1 => if f i = Char.ofNat 0 then i else strlenFrom f (i + 1) fuel

/-- Embeds the start-up section of `displayTicker` (hd44780i2c.c lines
428-447), up to the head of the perpetual loop: if
`length + padding > TEXT_MAX_LENGTH` the thread exits at once, before
touching the text buffer and before any display operation; otherwise
the buffer is padded with spaces, NUL-terminated, and the length
recomputed with `strlen`.  The result is (outcome, final text buffer,
expander trace emitted so far). -/
def displayTickerStart (t : TickerStruct) :
    TickerOutcome × (Nat → Char) × List McpEvent :=
  if t.length + t.padding > TEXT_MAX_LENGTH then
    (.threadExit, t.text, [])
  else
    let padded : Nat → Char := fun i =>
      if t.length ≤ i ∧ i < t.length + t.padding then ' '
      else if i = t.length + t.padding then Char.ofNat 0
      else t.text i
    let st := { t with text := padded
                       length := strlenFrom padded 0 (TEXT_MAX_LENGTH + 1) }
    (.entersLoop st, padded, [])

/-! ## C1, C2: the nibble transmission -/

/-- C1: refuted on the source.  The claim requires the composed word to
have the expander bit for DB(4+i) set iff bit i of the nibble is 1, and
for `sendByte(0x41, Data)` a high word encoding 0100 then a low word
encoding 0001.  The source composes the word with the comparison
`( nib < i ) & 0x1` (hd44780i2c.c lines 139 and 154) instead of the bit
test `( nib >> i ) & 0x1`: for payload 0x41 the high-nibble word (hi =
0x4) carries no DB bit at all although bit 2 of the nibble is 1, and
the low-nibble word (lo = 0x1) carries DB6 and DB7 although only bit 0
of the nibble is 1.  The full emitted trace at the failing input is
given explicitly. -/
theorem hd44780WriteByte_nibble_mapping_bug :
    hd44780WriteByteTrace stdDisplay 0x41 MODE_DATA =
      [ .setBits 0x15 0x02, .setBits 0x15 0x01, .sleep 5000,
        .unsetBits 0x15 0x01, .sleep 5000,
        .setBits 0x15 0xC2, .setBits 0x15 0x01, .sleep 5000,
        .unsetBits 0x15 0x01, .sleep 5000 ]
  ∧ (composeNibbleByte stdDisplay 0x4 MODE_DATA &&& stdDisplay.db 2 = 0
       ∧ (0x4 >>> 2) &&& 1 = 1)
  ∧ (composeNibbleByte stdDisplay 0x1 MODE_DATA &&& stdDisplay.db 2 ≠ 0
       ∧ (0x1 >>> 2) &&& 1 = 0) := by
  decide

/-- C2: refuted on the source.  The claim requires each composed nibble
word to reach the expander output register as one full-byte write
(`mcp23017WriteByte`), never a bitwise one.  The source delivers both
words with the bitwise set-bits primitive `mcp23017SetBitsByte`
(hd44780i2c.c lines 143 and 158): the trace of `sendByte(0x41, Data)`
contains no full-byte write at all, and the two word deliveries (trace
positions 0 and 5) are set-bits events. -/
theorem hd44780WriteByte_uses_setBits_not_fullByte :
    (hd44780WriteByteTrace stdDisplay 0x41 MODE_DATA).countP
        (fun e => match e with | .writeByte _ => true | _ => false) = 0
  ∧ (hd44780WriteByteTrace stdDisplay 0x41 MODE_DATA).head? =
      some (.setBits stdDisplay.reg (composeNibbleByte stdDisplay 0x4 MODE_DATA))
  ∧ (hd44780WriteByteTrace stdDisplay 0x41 MODE_DATA).get? 5 =
      some (.setBits stdDisplay.reg (composeNibbleByte stdDisplay 0x1 MODE_DATA)) := by
  decide

/-! ## C3: goto -/

/-- Helper: for in-range rows and columns, the source's
`( ADDRESS_DDRAM | rows[row] ) + pos` coincides with the claim's
`ADDRESS_DDRAM | ( rows[row] + pos )`. -/
theorem goto_addr_comm (row : Nat) (hr : row < DISPLAY_ROWS)
    (pos : Nat) (hp : pos < DISPLAY_COLUMNS) :
    (ADDRESS_DDRAM ||| gotoRowAddresses.getD row 0) + pos
      = ADDRESS_DDRAM ||| (gotoRowAddresses.getD row 0 + pos) := by
  simp only [DISPLAY_ROWS] at hr
  simp only [DISPLAY_COLUMNS] at hp
  interval_cases row <;> interval_cases pos <;> decide

/-- C3: `hd44780Goto` on a valid (row, pos) succeeds and issues exactly
one command byte, `ADDRESS_DDRAM ||| (rowStart[row] + pos)`; on any
out-of-range row or column it returns -1 having issued zero expander
writes. -/
theorem hd44780Goto_spec (d : Hd44780i2c) (row pos : Nat) :
    (row < DISPLAY_ROWS → pos < DISPLAY_COLUMNS →
      hd44780Goto d row pos
        = (0, byteCallsTrace d
            [(ADDRESS_DDRAM ||| (gotoRowAddresses.getD row 0 + pos), MODE_COMMAND)]))
  ∧ (DISPLAY_ROWS ≤ row ∨ DISPLAY_COLUMNS ≤ pos →
      hd44780Goto d row pos = (-1, [])) := by
  constructor
  · intro hr hp
    have h1 : (decide (pos < 0) || decide (pos > DISPLAY_COLUMNS - 1)) = false := by
      simp only [DISPLAY_COLUMNS] at hp ⊢
      simp only [Bool.or_eq_false_iff, decide_eq_false_iff_not]
      omega
    have h2 : (decide (row < 0) || decide (row > DISPLAY_ROWS - 1)) = false := by
      simp only [DISPLAY_ROWS] at hr ⊢
      simp only [Bool.or_eq_false_iff, decide_eq_false_iff_not]
      omega
    simp only [hd44780Goto, h1, h2, Bool.false_eq_true, if_false,
      byteCallsTrace, List.flatMap_cons, List.flatMap_nil, List.append_nil,
      goto_addr_comm row hr pos hp]
  · intro h
    by_cases hp : pos > DISPLAY_COLUMNS - 1
    · have h1 : (decide (pos < 0) || decide (pos > DISPLAY_COLUMNS - 1)) = true := by
        simp [hp]
      simp only [hd44780Goto, h1, if_true]
    · have h1 : (decide (pos < 0) || decide (pos > DISPLAY_COLUMNS - 1)) = false := by
        simp only [Bool.or_eq_false_iff, decide_eq_false_iff_not]
        omega
      have hr : row > DISPLAY_ROWS - 1 := by
        simp only [DISPLAY_COLUMNS, DISPLAY_ROWS] at hp h ⊢
        omega
      have h2 : (decide (row < 0) || decide (row > DISPLAY_ROWS - 1)) = true := by
        simp [hr]
      simp only [hd44780Goto, h1, h2, Bool.false_eq_true, if_false, if_true]

/-- Witness for C3: on the 4-row/20-column geometry with rowStart =
[0x00,0x40,0x14,0x54], `hd44780Goto(row=1, pos=3)` sends the single
command byte `0x80 ||| (0x40 + 3) = 0xC3`. -/
theorem hd44780Goto_spec_witness :
    (1 < DISPLAY_ROWS ∧ 3 < DISPLAY_COLUMNS)
  ∧ hd44780Goto stdDisplay 1 3
      = (0, byteCallsTrace stdDisplay
          [(ADDRESS_DDRAM ||| (gotoRowAddresses.getD 1 0 + 3), MODE_COMMAND)])
  ∧ ADDRESS_DDRAM ||| (gotoRowAddresses.getD 1 0 + 3) = 0xC3 :=
  ⟨⟨by decide, by decide⟩,
   (hd44780Goto_spec stdDisplay 1 3).1 (by decide) (by decide),
   by decide⟩

/-! ## C4: initialisation sequence -/

/-- C4: for every option set, `initialiseDisplay` emits, in this fixed
order: three 0x3 pulses delivered as full-byte writes with direct EN
toggling and follow-up delays of 4200 µs (≥ 4.1 ms), 150 µs (≥ 100 µs)
and 150 µs, then one 0x2 pulse with a 50 µs (≥ 37 µs) delay, then — in
`hd44780WriteByte`'s dual-nibble framing — exactly one function-set
command followed by display-off, entry-mode, display-mode, move-mode,
DDRAM address reset and clear, with the clear's 1.6 ms settle last. -/
theorem initialiseDisplay_sequence (d : Hd44780i2c) (o : InitOptions) :
    initialiseDisplayTrace d o =
      ([ .sleep 42000,
         .writeByte 0x03, .setBits d.reg d.en, .sleep 5000,
           .unsetBits d.reg d.en, .sleep 5000, .sleep 4200,
         .writeByte 0x03, .setBits d.reg d.en, .sleep 5000,
           .unsetBits d.reg d.en, .sleep 5000, .sleep 150,
         .writeByte 0x03, .setBits d.reg d.en, .sleep 5000,
           .unsetBits d.reg d.en, .sleep 5000, .sleep 150,
         .writeByte 0x02, .setBits d.reg d.en, .sleep 5000,
           .unsetBits d.reg d.en, .sleep 5000, .sleep 50 ]
       ++ byteCallsTrace d
            [ (FUNCTION_BASE ||| b2n o.data * FUNCTION_DATA
                 ||| b2n o.lines * FUNCTION_LINES ||| b2n o.font * FUNCTION_FONT,
               MODE_COMMAND),
              (DISPLAY_BASE, MODE_COMMAND),
              (ENTRY_BASE ||| b2n o.counter * ENTRY_COUNTER
                 ||| b2n o.shift * ENTRY_SHIFT, MODE_COMMAND),
              (DISPLAY_BASE ||| b2n o.displayOn * DISPLAY_ON
                 ||| b2n o.cursor * DISPLAY_CURSOR ||| b2n o.blink * DISPLAY_BLINK,
               MODE_COMMAND),
              (MOVE_BASE ||| b2n o.mode * MOVE_DISPLAY
                 ||| b2n o.direction * MOVE_DIRECTION, MODE_COMMAND),
              (ADDRESS_DDRAM, MODE_COMMAND),
              (DISPLAY_CLEAR, MODE_COMMAND) ]
       ++ [.sleep 1600])
  ∧ 4100 ≤ 4200 ∧ 100 ≤ 150 ∧ 100 ≤ 150 ∧ 37 ≤ 50 := by
  refine ⟨?_, by decide, by decide, by decide, by decide⟩
  simp only [initialiseDisplayTrace, byteCallsTrace, displayClear,
    hd44780ToggleEnable, List.flatMap_cons, List.flatMap_nil,
    List.append_nil, List.append_assoc, List.cons_append, List.nil_append]

/-! ## C5: no initialisation gate -/

/-- C5: refuted on the source.  The claim requires every DisplayCommands
operation to fail with NotInitialized while `initialized` is false; on
the concrete uninitialised display, `displayClear` and `hd44780Goto`
both return success (0) and emit expander writes — the source contains
no initialisation check at all. -/
theorem displayCommands_no_init_check :
    stdUninit.initialized = false
  ∧ (displayClear stdUninit).1 = 0
  ∧ (displayClear stdUninit).2 ≠ []
  ∧ (hd44780Goto stdUninit 1 3).1 = 0
  ∧ (hd44780Goto stdUninit 1 3).2 ≠ [] := by
  decide

/-- C5 amended: no DisplayCommands operation consults the `initialized`
flag — each behaves identically on an initialised and an uninitialised
display — and the unconditional operations always return success. -/
theorem displayCommands_ignore_initialized (d : Hd44780i2c) (b : Bool)
    (row pos : Nat) (s : List Char) (glyphs : Nat → Nat → Nat)
    (f1 f2 f3 : Bool) :
    displayClear { d with initialized := b } = displayClear d
  ∧ displayHome { d with initialized := b } = displayHome d
  ∧ hd44780Goto { d with initialized := b } row pos = hd44780Goto d row pos
  ∧ hd44780WriteString { d with initialized := b } s = hd44780WriteString d s
  ∧ loadCustom { d with initialized := b } glyphs = loadCustom d glyphs
  ∧ setEntryMode { d with initialized := b } f1 f2 = setEntryMode d f1 f2
  ∧ setDisplayMode { d with initialized := b } f1 f2 f3 = setDisplayMode d f1 f2 f3
  ∧ setMoveMode { d with initialized := b } f1 f2 = setMoveMode d f1 f2
  ∧ (displayClear d).1 = 0 ∧ (displayHome d).1 = 0
  ∧ (hd44780WriteString d s).1 = 0 ∧ (loadCustom d glyphs).1 = 0
  ∧ (setEntryMode d f1 f2).1 = 0 ∧ (setDisplayMode d f1 f2 f3).1 = 0
  ∧ (setMoveMode d f1 f2).1 = 0 :=
  ⟨rfl, rfl, rfl, rfl, rfl, rfl, rfl, rfl, rfl, rfl, rfl, rfl, rfl, rfl, rfl⟩

/-! ## C6: bus faults are swallowed -/

/-- C6: refuted on the source.  The claim requires `sendByte` to return a
BusFault when an underlying expander write fails; with a status stream
whose first write fails (status -1), `hd44780WriteByte` still returns 0
(success): the source discards every primitive's return code and
returns the literal 0 (hd44780i2c.c line 164). -/
theorem hd44780WriteByte_swallows_bus_fault :
    (fun n => if n = 0 then (-1 : Int) else 0) 0 ≠ 0
  ∧ (hd44780WriteByteRun stdDisplay (fun n => if n = 0 then -1 else 0)
       0x41 MODE_DATA).1 = 0 := by
  exact ⟨by decide, rfl⟩

/-- C6 amended: `hd44780WriteByte`'s return value and expander trace are
independent of the expander status codes — it always returns 0
(success) and issues each expander operation of the fixed per-call
sequence exactly once, with no retry. -/
theorem hd44780WriteByte_ignores_faults_no_retry (d : Hd44780i2c)
    (status status2 : Nat → Int) (data mode : Nat) :
    hd44780WriteByteRun d status data mode
      = hd44780WriteByteRun d status2 data mode
  ∧ (hd44780WriteByteRun d status data mode).1 = 0
  ∧ (hd44780WriteByteRun d status data mode).2
      = hd44780WriteByteTrace d data mode :=
  ⟨rfl, rfl, rfl⟩

/-! ## C7, C10: rotation -/

/-- Pointwise characterisation of `reverseString`: indices inside
[start, fin) are mirrored, all others untouched. -/
theorem reverseString_apply (buffer : Nat → Char) (start fin : Nat) :
    ∀ i, reverseString buffer start fin i =
      if start ≤ i ∧ i < fin then buffer (start + fin - 1 - i) else buffer i := by
  induction buffer, start, fin using reverseString.induct with
  | case1 buffer start fin h ih =>
    intro i
    rw [reverseString, dif_pos h, ih i]
    by_cases hA : start + 1 ≤ i ∧ i < fin - 1
    · rw [if_pos hA]
      simp only [swapChars]
      have e1 : start + 1 + (fin - 1) - 1 - i = start + fin - 1 - i := by omega
      rw [e1, if_neg (by omega : ¬(start + fin - 1 - i = start)),
        if_neg (by omega : ¬(start + fin - 1 - i = fin - 1)),
        if_pos (by omega : start ≤ i ∧ i < fin)]
    · rw [if_neg hA]
      simp only [swapChars]
      by_cases hB : i = start
      · rw [if_pos hB, if_pos (by omega : start ≤ i ∧ i < fin)]
        congr 1
        omega
      · rw [if_neg hB]
        by_cases hC : i = fin - 1
        · rw [if_pos hC, if_pos (by omega : start ≤ i ∧ i < fin)]
          congr 1
          omega
        · rw [if_neg hC, if_neg (by omega : ¬(start ≤ i ∧ i < fin))]
  | case2 buffer start fin h =>
    intro i
    rw [reverseString, dif_neg h, if_neg (by omega : ¬(start ≤ i ∧ i < fin))]

/-- Pointwise characterisation of `rotateString`: for a positive length
it rotates the first `length` positions left by `increments % length`
and leaves every other position untouched. -/
theorem rotateString_apply (buffer : Nat → Char) (L k : Nat) (hL : 0 < L) :
    ∀ i, rotateString buffer L k i =
      if i < L then buffer ((i + k % L) % L) else buffer i := by
  intro i
  have hm : k % L < L := Nat.mod_lt _ hL
  show reverseString (reverseString (reverseString buffer 0 (k % L)) (k % L) L) 0 L i = _
  rw [reverseString_apply]
  by_cases hi : i < L
  · rw [if_pos (show 0 ≤ i ∧ i < L from ⟨Nat.zero_le _, hi⟩), if_pos hi]
    rw [reverseString_apply]
    by_cases hj : k % L ≤ 0 + L - 1 - i
    · rw [if_pos (show k % L ≤ 0 + L - 1 - i ∧ 0 + L - 1 - i < L by omega)]
      rw [reverseString_apply]
      rw [if_neg (show ¬(0 ≤ k % L + L - 1 - (0 + L - 1 - i)
            ∧ k % L + L - 1 - (0 + L - 1 - i) < k % L) by omega)]
      rw [Nat.mod_eq_of_lt (show i + k % L < L by omega)]
      congr 1
      omega
    · rw [if_neg (show ¬(k % L ≤ 0 + L - 1 - i ∧ 0 + L - 1 - i < L) by omega)]
      rw [reverseString_apply]
      rw [if_pos (show 0 ≤ 0 + L - 1 - i ∧ 0 + L - 1 - i < k % L by omega)]
      have e2 : (i + k % L) % L = i + k % L - L := by
        rw [Nat.mod_eq_sub_mod (by omega)]
        exact Nat.mod_eq_of_lt (by omega)
      rw [e2]
      congr 1
      omega
  · rw [if_neg (show ¬(0 ≤ i ∧ i < L) by omega), if_neg hi]
    rw [reverseString_apply]
    rw [if_neg (show ¬(k % L ≤ i ∧ i < L) by omega)]
    rw [reverseString_apply]
    rw [if_neg (show ¬(0 ≤ i ∧ i < k % L) by omega)]

/-- C7: rotating a buffer of length L by k and then by L − k restores the
first L characters, for every 0 ≤ k < L (hd44780i2c.c lines 414-423:
`rotateString` as the three in-place reversals). -/
theorem rotateString_rotateBack (buffer : Nat → Char) (L k : Nat)
    (hL : 1 ≤ L) (hk : k < L) :
    ∀ i, i < L →
      rotateString (rotateString buffer L k) L (L - k) i = buffer i := by
  intro i hi
  rw [rotateString_apply _ _ _ hL, if_pos hi,
    rotateString_apply _ _ _ hL,
    if_pos (Nat.mod_lt _ hL : (i + (L - k) % L) % L < L)]
  have hk' : k % L = k := Nat.mod_eq_of_lt hk
  by_cases h0 : k = 0
  · subst h0
    have e : ((i + (L - 0) % L) % L + 0 % L) % L = i := by
      rw [Nat.sub_zero, Nat.mod_self, Nat.add_zero, Nat.mod_eq_of_lt hi,
        Nat.zero_mod, Nat.add_zero, Nat.mod_eq_of_lt hi]
    rw [e]
  · have hLk : (L - k) % L = L - k := Nat.mod_eq_of_lt (by omega)
    rw [hLk, hk']
    by_cases hc : i + (L - k) < L
    · rw [Nat.mod_eq_of_lt hc]
      have e1 : i + (L - k) + k = i + L := by omega
      rw [e1, Nat.add_mod_right, Nat.mod_eq_of_lt hi]
    · have e0 : (i + (L - k)) % L = i + (L - k) - L := by
        rw [Nat.mod_eq_sub_mod (by omega)]
        exact Nat.mod_eq_of_lt (by omega)
      rw [e0]
      have e1 : i + (L - k) - L + k = i := by omega
      rw [e1, Nat.mod_eq_of_lt hi]

/-- Witness for C7: a concrete 3-character buffer rotated by 1 and then
by 2 is restored at every position below the length. -/
theorem rotateString_rotateBack_witness :
    1 ≤ 3 ∧ 1 < 3 ∧ 0 < 3
  ∧ rotateString (rotateString (fun j => Char.ofNat (65 + j)) 3 1) 3 (3 - 1) 0
      = (fun j => Char.ofNat (65 + j)) 0 :=
  ⟨by decide, by decide, by decide,
   rotateString_rotateBack (fun j => Char.ofNat (65 + j)) 3 1
     (by decide) (by decide) 0 (by decide)⟩

/-- C10: `rotateString` with a positive length modifies only positions
0..L−1: every index at or beyond L — including the terminating NUL slot
at index L — is left unchanged. -/
theorem rotateString_frame (buffer : Nat → Char) (L k i : Nat)
    (hL : 1 ≤ L) (hi : L ≤ i) :
    rotateString buffer L k i = buffer i := by
  rw [rotateString_apply _ _ _ hL, if_neg (by omega)]

/-- Witness for C10: rotating a concrete 3-character buffer by 2 leaves
index 3 (the terminating NUL position) unchanged. -/
theorem rotateString_frame_witness :
    1 ≤ 3 ∧ 3 ≤ 3
  ∧ rotateString (fun j => Char.ofNat (65 + j)) 3 2 3
      = (fun j => Char.ofNat (65 + j)) 3 :=
  ⟨by decide, by decide,
   rotateString_frame (fun j => Char.ofNat (65 + j)) 3 2 3
     (by decide) (by decide)⟩

/-! ## C8: ticker overflow fail-fast -/

/-- C8: if the ticker's text length plus padding exceeds
`TEXT_MAX_LENGTH`, `displayTicker` terminates immediately at start —
the text buffer is returned unmodified and no expander operation has
been issued — and the exit is `pthread_exit`, which terminates only the
calling presenter thread (constructor `TickerOutcome.threadExit`), not
the process, the other presenter or the display. -/
theorem displayTicker_overflow_exits (t : TickerStruct)
    (h : TEXT_MAX_LENGTH < t.length + t.padding) :
    displayTickerStart t = (.threadExit, t.text, []) := by
  unfold displayTickerStart
  rw [if_pos (by omega)]

/-- Witness for C8: a ticker with length 60 and padding 10 (against the
fixed maximum 64) exits its thread at start with an untouched buffer
and an empty expander trace. -/
theorem displayTicker_overflow_exits_witness :
    TEXT_MAX_LENGTH < 60 + 10
  ∧ displayTickerStart
      { text := fun _ => 'A', length := 60, padding := 10, increment := 1,
        delay := 1, row := 0, display := stdDisplay }
      = (.threadExit, (fun _ => 'A'), []) :=
  ⟨by decide,
   displayTicker_overflow_exits
     { text := fun _ => 'A', length := 60, padding := 10, increment := 1,
       delay := 1, row := 0, display := stdDisplay }
     (by decide)⟩

/-! ## C9: display-lock serialisation of presenter bursts -/

/-- Instructions of a presenter thread, abstracted to what matters for
the display lock: acquire `displayBusy` (`pthread_mutex_lock`), release
it (`pthread_mutex_unlock`), perform one expander operation while
holding the display (`act`), or an internal step with no display
effect (`tau`: sleeping, rotating the local buffer, formatting the
time). -/
inductive LInstr where
  | lock
  | unlock
  | act (e : McpEvent)
  | tau
deriving DecidableEq, Repr

/-- Configuration: the remaining program of each of the two presenter
threads (identified by `Bool`: `false` = ticker, `true` = calendar) and
the current holder of the `displayBusy` mutex (`none` = free). -/
structure LCfg where
  prog : Bool → List LInstr
  holder : Option Bool

/-- Program update after thread `t` consumes one instruction, leaving
`rest`. -/
def updProg (c : LCfg) (t : Bool) (rest : List LInstr) : Bool → List LInstr :=
  fun u => if u = t then rest else c.prog u

theorem updProg_same (c : LCfg) (t : Bool) (rest : List LInstr) :
    updProg c t rest t = rest := by
  simp [updProg]

theorem updProg_other (c : LCfg) (t : Bool) (rest : List LInstr)
    (u : Bool) (h : u ≠ t) : updProg c t rest u = c.prog u := by
  simp [updProg, h]

/-- Modelled from the spec: interleaving small-step semantics of the two
presenter threads under pthread mutex semantics — `lock` can fire only
while the mutex is free (`pthread_mutex_lock` blocks otherwise),
`unlock` only by the holder; an expander `act` is never blocked by the
semantics itself (the hardware does not check the mutex), so exclusion
can come only from the programs' lock discipline. -/
inductive LStep : LCfg → Bool × LInstr → LCfg → Prop where
  | lock (c : LCfg) (t : Bool) (rest : List LInstr) :
      c.prog t = .lock :: rest → c.holder = none →
      LStep c (t, .lock) ⟨updProg c t rest, some t⟩
  | unlock (c : LCfg) (t : Bool) (rest : List LInstr) :
      c.prog t = .unlock :: rest → c.holder = some t →
      LStep c (t, .unlock) ⟨updProg c t rest, none⟩
  | act (c : LCfg) (t : Bool) (e : McpEvent) (rest : List LInstr) :
      c.prog t = .act e :: rest →
      LStep c (t, .act e) ⟨updProg c t rest, c.holder⟩
  | tau (c : LCfg) (t : Bool) (rest : List LInstr) :
      c.prog t = .tau :: rest →
      LStep c (t, .tau) ⟨updProg c t rest, c.holder⟩

/-- A run: the trace of (thread, instruction) steps from one
configuration to another.  Runs may stop at any point. -/
inductive LRun : LCfg → List (Bool × LInstr) → LCfg → Prop where
  | nil (c : LCfg) : LRun c [] c
  | cons (c c' c'' : LCfg) (x : Bool × LInstr) (tr : List (Bool × LInstr)) :
      LStep c x c' → LRun c' tr c'' → LRun c (x :: tr) c''

/-- Well-bracketed presenter continuations: `SProg inside p` states that
`p` is a valid remaining program, `inside` recording whether the thread
is currently within a lock/unlock critical section.  Expander `act`s
occur only inside critical sections, `tau` steps only outside — the
shape of both presenter loop bodies in the source (lock, goto, write
string, unlock, then sleep/rotate). -/
inductive SProg : Bool → List LInstr → Prop where
  | nil : SProg false []
  | tau (p : List LInstr) : SProg false p → SProg false (.tau :: p)
  | lock (p : List LInstr) : SProg true p → SProg false (.lock :: p)
  | act (e : McpEvent) (p : List LInstr) :
      SProg true p → SProg true (.act e :: p)
  | unlock (p : List LInstr) : SProg false p → SProg true (.unlock :: p)

/-- Lock-consistency invariant: each thread's remaining program is
well-bracketed, and a thread is inside its critical section exactly
when it holds the mutex. -/
def LInv (c : LCfg) : Prop :=
  ∀ t : Bool, SProg (decide (c.holder = some t)) (c.prog t)

theorem SProg_lock_inv {b : Bool} {p : List LInstr}
    (h : SProg b (.lock :: p)) : b = false ∧ SProg true p := by
  cases h with
  | lock _ h => exact ⟨rfl, h⟩

theorem SProg_unlock_inv {b : Bool} {p : List LInstr}
    (h : SProg b (.unlock :: p)) : b = true ∧ SProg false p := by
  cases h with
  | unlock _ h => exact ⟨rfl, h⟩

theorem SProg_act_inv {b : Bool} {e : McpEvent} {p : List LInstr}
    (h : SProg b (.act e :: p)) : b = true ∧ SProg true p := by
  cases h with
  | act _ _ h => exact ⟨rfl, h⟩

theorem SProg_tau_inv {b : Bool} {p : List LInstr}
    (h : SProg b (.tau :: p)) : b = false ∧ SProg false p := by
  cases h with
  | tau _ h => exact ⟨rfl, h⟩

theorem decide_none_some (u : Bool) :
    (decide ((none : Option Bool) = some u)) = false := by
  simp

theorem decide_some_same (t : Bool) :
    (decide ((some t : Option Bool) = some t)) = true := by
  simp

theorem decide_some_other {t u : Bool} (h : u ≠ t) :
    (decide ((some t : Option Bool) = some u)) = false := by
  simp only [decide_eq_false_iff_not, Option.some.injEq]
  exact fun h3 => h h3.symm

/-- One step preserves the lock-consistency invariant. -/
theorem LInv_step {c c' : LCfg} {x : Bool × LInstr}
    (h : LStep c x c') (inv : LInv c) : LInv c' := by
  cases h with
  | lock t rest hp hh =>
    intro u
    have hu := inv u
    rw [hh] at hu
    by_cases hut : u = t
    · subst hut
      rw [hp, decide_none_some] at hu
      rw [show (⟨updProg c u rest, some u⟩ : LCfg).prog u = rest from updProg_same c u rest,
        show (⟨updProg c u rest, some u⟩ : LCfg).holder = some u from rfl,
        decide_some_same]
      exact (SProg_lock_inv hu).2
    · rw [show (⟨updProg c t rest, some t⟩ : LCfg).prog u = c.prog u from
        updProg_other c t rest u hut,
        show (⟨updProg c t rest, some t⟩ : LCfg).holder = some t from rfl,
        decide_some_other hut]
      rw [decide_none_some] at hu
      exact hu
  | unlock t rest hp hh =>
    intro u
    have hu := inv u
    rw [hh] at hu
    by_cases hut : u = t
    · subst hut
      rw [hp, decide_some_same] at hu
      rw [show (⟨updProg c u rest, none⟩ : LCfg).prog u = rest from updProg_same c u rest,
        show (⟨updProg c u rest, none⟩ : LCfg).holder = none from rfl,
        decide_none_some]
      exact (SProg_unlock_inv hu).2
    · rw [show (⟨updProg c t rest, none⟩ : LCfg).prog u = c.prog u from
        updProg_other c t rest u hut,
        show (⟨updProg c t rest, none⟩ : LCfg).holder = none from rfl,
        decide_none_some]
      rw [decide_some_other hut] at hu
      exact hu
  | act t e rest hp =>
    intro u
    have hu := inv u
    by_cases hut : u = t
    · subst hut
      rw [hp] at hu
      have hflag := (SProg_act_inv hu).1
      rw [show (⟨updProg c u rest, c.holder⟩ : LCfg).prog u = rest from updProg_same c u rest,
        show (⟨updProg c u rest, c.holder⟩ : LCfg).holder = c.holder from rfl, hflag]
      exact (SProg_act_inv hu).2
    · rw [show (⟨updProg c t rest, c.holder⟩ : LCfg).prog u = c.prog u from
        updProg_other c t rest u hut,
        show (⟨updProg c t rest, c.holder⟩ : LCfg).holder = c.holder from rfl]
      exact hu
  | tau t rest hp =>
    intro u
    have hu := inv u
    by_cases hut : u = t
    · subst hut
      rw [hp] at hu
      have hflag := (SProg_tau_inv hu).1
      rw [show (⟨updProg c u rest, c.holder⟩ : LCfg).prog u = rest from updProg_same c u rest,
        show (⟨updProg c u rest, c.holder⟩ : LCfg).holder = c.holder from rfl, hflag]
      exact (SProg_tau_inv hu).2
    · rw [show (⟨updProg c t rest, c.holder⟩ : LCfg).prog u = c.prog u from
        updProg_other c t rest u hut,
        show (⟨updProg c t rest, c.holder⟩ : LCfg).holder = c.holder from rfl]
      exact hu

/-- The invariant is preserved along whole runs. -/
theorem LInv_run {c cf : LCfg} {tr : List (Bool × LInstr)}
    (h : LRun c tr cf) (inv : LInv c) : LInv cf := by
  induction h with
  | nil c => exact inv
  | cons c c' c'' x tr hstep htail ih => exact ih (LInv_step hstep inv)

/-- A run over an appended trace splits at the join point. -/
theorem LRun_append_split {c cf : LCfg} {xs ys : List (Bool × LInstr)}
    (h : LRun c (xs ++ ys) cf) : ∃ cm, LRun c xs cm ∧ LRun cm ys cf := by
  induction xs generalizing c with
  | nil => exact ⟨c, .nil c, h⟩
  | cons x xs ih =>
    cases h with
    | cons _ c' _ _ _ hstep htail =>
      obtain ⟨cm, h1, h2⟩ := ih htail
      exact ⟨cm, .cons _ _ _ _ _ hstep h1, h2⟩

/-- Two runs compose. -/
theorem LRun_append {c cm cf : LCfg} {xs ys : List (Bool × LInstr)}
    (h1 : LRun c xs cm) (h2 : LRun cm ys cf) : LRun c (xs ++ ys) cf := by
  induction h1 with
  | nil c => exact h2
  | cons c c' c'' x tr hstep htail ih => exact .cons _ _ _ _ _ hstep (ih h2)

/-- Core exclusion lemma: while thread `t` holds the mutex and does not
release it anywhere in a trace, the other thread performs no expander
operation in that trace, and `t` still holds the mutex afterwards. -/
theorem LRun_locked_excludes {t : Bool} {c cf : LCfg}
    {tr : List (Bool × LInstr)} (hrun : LRun c tr cf) :
    LInv c → c.holder = some t →
    (∀ x ∈ tr, x ≠ (t, LInstr.unlock)) →
    (∀ e, (!t, LInstr.act e) ∉ tr) ∧ cf.holder = some t ∧ LInv cf := by
  induction hrun with
  | nil c =>
    intro inv hh _
    exact ⟨fun e => List.not_mem_nil _, hh, inv⟩
  | cons c c' c'' x tr hstep htail ih =>
    intro inv hh hno
    have inv' : LInv c' := LInv_step hstep inv
    cases hstep with
    | lock u rest hp hhold =>
      rw [hh] at hhold
      exact absurd hhold (by simp)
    | unlock u rest hp hhold =>
      rw [hh] at hhold
      have hut : u = t := by
        have := Option.some.inj hhold
        exact this.symm
      subst hut
      exact absurd rfl (hno _ (List.mem_cons_self _ _))
    | act u e rest hp =>
      have hu := inv u
      rw [hp] at hu
      have hflag := (SProg_act_inv hu).1
      have hhu : c.holder = some u := of_decide_eq_true hflag
      have hut : u = t := by
        rw [hh] at hhu
        exact (Option.some.inj hhu).symm
      subst hut
      have hh' : (⟨updProg c u rest, c.holder⟩ : LCfg).holder = some u := hh
      obtain ⟨htl, hhf, hinvf⟩ := ih inv' hh'
        (fun y hy => hno y (List.mem_cons_of_mem _ hy))
      refine ⟨?_, hhf, hinvf⟩
      intro e' hmem
      rcases List.mem_cons.mp hmem with heq | hmem'
      · have : (!u) = u := congrArg Prod.fst heq
        exact absurd this (by cases u <;> decide)
      · exact htl e' hmem'
    | tau u rest hp =>
      have hh' : (⟨updProg c u rest, c.holder⟩ : LCfg).holder = some t := hh
      obtain ⟨htl, hhf, hinvf⟩ := ih inv' hh'
        (fun y hy => hno y (List.mem_cons_of_mem _ hy))
      refine ⟨?_, hhf, hinvf⟩
      intro e' hmem
      rcases List.mem_cons.mp hmem with heq | hmem'
      · exact absurd (congrArg Prod.snd heq) (by simp)
      · exact htl e' hmem'

/-- One presenter burst at the lock level: acquire `displayBusy`,
perform the burst's expander operations, release. -/
def burstOf (es : List McpEvent) : List LInstr :=
  .lock :: es.map .act ++ [.unlock]

/-- The window copied into the ticker's local buffer each iteration
(`strncpy( buffer, ticker->text, DISPLAY_COLUMNS )`): the first
`DISPLAY_COLUMNS` characters of the ticker text (or all of it if
shorter). -/
def tickerWindow (t : TickerStruct) : List Char :=
  (List.range (min t.length DISPLAY_COLUMNS)).map t.text

/-- Modelled from the spec: the expander operations of one ticker burst.
The loop body of `displayTicker` (hd44780i2c.c lines 458-461) calls
`gotoRowPos( display, row, 0 )` and `hd44780writeString( display,
buffer )` under the lock; these names are not among the sampled
sources and are the goto / write-string operations (`hd44780Goto`,
`hd44780WriteString`). -/
def tickerBurstEvents (t : TickerStruct) : List McpEvent :=
  (hd44780Goto t.display t.row 0).2
    ++ (hd44780WriteString t.display (tickerWindow t)).2

/-- The ticker state after one iteration: the text rotated left by
`increment` (hd44780i2c.c line 467). -/
def tickerAdvance (t : TickerStruct) : TickerStruct :=
  { t with text := rotateString t.text t.length t.increment }

/-- Lock-level program of `displayTicker`'s loop for `n` iterations:
each iteration locks, performs the goto+writeString burst, unlocks,
then sleeps and rotates (a `tau` step). -/
def tickerProgram : TickerStruct → Nat → List LInstr
  | _, 0 => []
  | t, n + 1 =>
      burstOf (tickerBurstEvents t) ++ .tau :: tickerProgram (tickerAdvance t) n

/-- Calendar presenter parameters (`struct Calendar`, fields
reconstructed from their uses in `displayCalendar`). -/
structure CalendarState where
  display : Hd44780i2c
  row : Nat
  col : Nat

/-- Modelled from the spec: the expander operations of one calendar
burst.  The loop body of `displayCalendar` (hd44780i2c.c lines
506-509) calls `gotoRowPos` and `writeDataString` under the lock with
the text produced by `strftime` (external); `s` is that formatted
text. -/
def calendarBurstEvents (c : CalendarState) (s : List Char) : List McpEvent :=
  (hd44780Goto c.display c.row c.col).2 ++ (hd44780WriteString c.display s).2

/-- Lock-level program of `displayCalendar`'s loop for `n` iterations
starting at frame `k`; `times k` is the formatted time text of frame
`k` (the source alternates two `strftime` format strings). -/
def calendarProgram (c : CalendarState) (times : Nat → List Char) :
    Nat → Nat → List LInstr
  | _, 0 => []
  | k, n + 1 =>
      burstOf (calendarBurstEvents c (times k))
        ++ .tau :: calendarProgram c times (k + 1) n

theorem SProg_burst (es : List McpEvent) (p : List LInstr)
    (hp : SProg false p) : SProg false (burstOf es ++ p) := by
  have hacts : ∀ es2 : List McpEvent,
      SProg true (List.map LInstr.act es2 ++ LInstr.unlock :: p) := by
    intro es2
    induction es2 with
    | nil => exact .unlock _ hp
    | cons e es2 ih => exact .act e _ ih
  simp only [burstOf, List.cons_append, List.append_assoc, List.singleton_append]
  exact .lock _ (hacts es)

theorem tickerProgram_wf (n : Nat) : ∀ t, SProg false (tickerProgram t n) := by
  induction n with
  | zero => exact fun t => .nil
  | succ n ih => exact fun t => SProg_burst _ _ (.tau _ (ih (tickerAdvance t)))

theorem calendarProgram_wf (c : CalendarState) (times : Nat → List Char)
    (n : Nat) : ∀ k, SProg false (calendarProgram c times k n) := by
  induction n with
  | zero => exact fun k => .nil
  | succ n ih => exact fun k => SProg_burst _ _ (.tau _ (ih (k + 1)))

/-- The initial configuration of the two presenters sharing one display:
thread `false` runs the ticker, thread `true` runs the calendar, the
`displayBusy` mutex is free. -/
def presentersCfg (t0 : TickerStruct) (cal : CalendarState)
    (times : Nat → List Char) (nT nC : Nat) : LCfg :=
  ⟨fun b => if b then calendarProgram cal times 0 nC else tickerProgram t0 nT,
   none⟩

theorem presentersCfg_inv (t0 : TickerStruct) (cal : CalendarState)
    (times : Nat → List Char) (nT nC : Nat) :
    LInv (presentersCfg t0 cal times nT nC) := by
  intro u
  rw [show (presentersCfg t0 cal times nT nC).holder = none from rfl,
    decide_none_some]
  cases u with
  | false => exact tickerProgram_wf nT t0
  | true => exact calendarProgram_wf cal times nC 0

/-- C9: the display lock totally orders the two presenters' bursts.  In
every interleaved run of the ticker and calendar programs from the
initial configuration, if the trace contains a critical section of
presenter `t` — a lock at some position, the matching unlock later,
with no intervening unlock by `t` — then the other presenter performs
no expander operation anywhere strictly inside that section: one
presenter's goto+writeString burst always completes in full before any
write of the other presenter's burst, and no character-level
interleaving of their output can occur. -/
theorem displayLock_serialises_bursts
    (t0 : TickerStruct) (cal : CalendarState) (times : Nat → List Char)
    (nT nC : Nat) (tr : List (Bool × LInstr)) (cf : LCfg)
    (hrun : LRun (presentersCfg t0 cal times nT nC) tr cf)
    (t : Bool) (pre mid post : List (Bool × LInstr))
    (hdec : tr = pre ++ (t, LInstr.lock) :: mid ++ (t, LInstr.unlock) :: post)
    (hno : ∀ x ∈ mid, x ≠ (t, LInstr.unlock)) :
    ∀ e : McpEvent, (!t, LInstr.act e) ∉ mid := by
  subst hdec
  obtain ⟨c1, hpre, hrest⟩ := LRun_append_split hrun
  obtain ⟨ca, hpre2, hlockmid⟩ := LRun_append_split hpre
  have inva : LInv ca := LInv_run hpre2 (presentersCfg_inv t0 cal times nT nC)
  cases hlockmid with
  | cons cA c2 cB xx trr hstep htail =>
    have hh2 : c2.holder = some t := by
      cases hstep with
      | lock rest hp hhold => rfl
    have inv2 : LInv c2 := LInv_step hstep inva
    exact fun e => (LRun_locked_excludes htail inv2 hh2 hno).1 e

/-- Executing a block of expander operations of one thread advances its
program past them, leaving the holder unchanged. -/
theorem LRun_acts_general (es : List McpEvent) :
    ∀ (c : LCfg) (t : Bool) (rest : List LInstr),
      c.prog t = es.map LInstr.act ++ rest →
      ∃ c', LRun c (es.map (fun e => (t, LInstr.act e))) c'
        ∧ c'.prog t = rest ∧ c'.holder = c.holder := by
  induction es with
  | nil =>
    intro c t rest h
    exact ⟨c, .nil c, h, rfl⟩
  | cons e es ih =>
    intro c t rest h
    have hstep : LStep c (t, .act e)
        ⟨updProg c t (es.map LInstr.act ++ rest), c.holder⟩ :=
      LStep.act c t e (es.map LInstr.act ++ rest) h
    obtain ⟨c', hrun, hp', hh'⟩ :=
      ih ⟨updProg c t (es.map LInstr.act ++ rest), c.holder⟩ t rest
        (updProg_same c t (es.map LInstr.act ++ rest))
    exact ⟨c', .cons _ _ _ _ _ hstep hrun, hp', hh'⟩

/-- Concrete ticker used by the C9 witness. -/
def c9Ticker : TickerStruct where
  text := fun _ => 'A'
  length := 1
  padding := 0
  increment := 1
  delay := 1
  row := 0
  display := stdDisplay

/-- Concrete calendar used by the C9 witness. -/
def c9Calendar : CalendarState where
  display := stdDisplay
  row := 1
  col := 0

/-- Concrete time-text stream used by the C9 witness. -/
def c9Times : Nat → List Char := fun _ => []

/-- The expander operations of the witness ticker's first burst. -/
def c9Events : List McpEvent := tickerBurstEvents c9Ticker

/-- The witness critical section's interior: the ticker's burst
operations as trace entries. -/
def c9Mid : List (Bool × LInstr) :=
  c9Events.map (fun e => (false, LInstr.act e))

/-- Witness for C9: in the concrete sequential run in which the ticker
(thread `false`) acquires the lock, performs its whole first burst and
releases, the calendar (thread `true`) performs no expander operation
inside the critical section. -/
theorem displayLock_serialises_bursts_witness :
    (∀ x ∈ c9Mid, x ≠ (false, LInstr.unlock))
  ∧ (true, LInstr.act (McpEvent.sleep 5000)) ∉ c9Mid := by
  have hlock : LStep (presentersCfg c9Ticker c9Calendar c9Times 1 1)
      (false, LInstr.lock)
      ⟨updProg (presentersCfg c9Ticker c9Calendar c9Times 1 1) false
         ((c9Events.map LInstr.act ++ [LInstr.unlock]) ++ [LInstr.tau]),
       some false⟩ :=
    LStep.lock _ false _ rfl rfl
  obtain ⟨c2, hacts, hprog2, hhold2⟩ :=
    LRun_acts_general c9Events
      ⟨updProg (presentersCfg c9Ticker c9Calendar c9Times 1 1) false
         ((c9Events.map LInstr.act ++ [LInstr.unlock]) ++ [LInstr.tau]),
       some false⟩
      false ([LInstr.unlock] ++ [LInstr.tau])
      (by simp [updProg, List.append_assoc])
  have hunlock : LStep c2 (false, LInstr.unlock)
      ⟨updProg c2 false [LInstr.tau], none⟩ :=
    LStep.unlock c2 false [LInstr.tau] hprog2 hhold2
  have hrun : LRun (presentersCfg c9Ticker c9Calendar c9Times 1 1)
      ((false, LInstr.lock) :: (c9Mid ++ [(false, LInstr.unlock)]))
      ⟨updProg c2 false [LInstr.tau], none⟩ :=
    .cons _ _ _ _ _ hlock
      (LRun_append hacts (.cons _ _ _ _ _ hunlock (.nil _)))
  refine ⟨by decide, ?_⟩
  exact displayLock_serialises_bursts c9Ticker c9Calendar c9Times 1 1 _ _ hrun
    false [] c9Mid [] (by simp) (by decide) (McpEvent.sleep 5000)
